import Mathlib

/-!
# Verification of the `machine` repository (jan-herout/machine)

The repository holds two snapshots of the same Go package:

* `src/machine.go` — the newer variant (`Machine` with a parent/child tree,
  a `Cache`, a `PubSub` bus, `Close`, `Sub`, `Total`, an unbuffered
  `workQueue`, and an admission loop in `Machine.serve`);
* `src/unnamed/part_000` — the older variant (`Machine` with string routine
  ids, an `errs` slice, a buffered `workerChan`, a dispatch loop spawned
  inside `New` that itself registers a routine tagged
  `machine.worker.queue`, and `Wait () []error`).

Both variants are embedded shallowly below.  Goroutine interleavings are
modelled as explicit event sequences over a machine state; Go `context`
cancellation is modelled as a Boolean that is set by the root cancel
function and, for the scheduler tree, derived along the parent path (a
context derived from a cancelled context is done).  Machine integers are
`Nat`/`Int`; a Go function value submitted as work is abstracted by the
result it eventually returns (`ok`, the distinguished `Cancel` error, or
another error), which is the only part of it the scheduler inspects.

Namespace `P0` embeds `src/unnamed/part_000`; namespace `Mgo` embeds
`src/machine.go`.
-/

namespace P0

/-- Result of a submitted function `func(routine Routine) error`, as
inspected by the launch wrapper in `New` (part_000 lines 149–159):
`nil`, an error whose `errors.Cause` is the distinguished `Cancel`
value (line 15), or any other error (carrying its message). -/
inductive FnRes where
  | ok : FnRes
  | cancelSig : FnRes
  | other : String → FnRes
deriving Repr, DecidableEq

/-- A queued work item (`worker`, part_000 lines 34–37): the submitted
function — abstracted by the result it returns — and its tags. -/
structure Wk where
  res : FnRes
  tags : List String
deriving Repr, DecidableEq

/-- One entry of `Machine.routines` (a `goRoutine`, part_000 lines 49–55,
without the `context.Context` and `time.Time` fields, which no claim
reads): its id, its tags, and — for admitted work items — the result its
function will report to the launch wrapper. -/
structure Routine0 where
  id : String
  tags : List String
  res : FnRes
deriving Repr, DecidableEq

/-- The part_000 `Machine` state (struct at lines 18–32).
`ctxDone` models `m.ctx.Err() != nil` for the root context created by
`context.WithCancel` in `New` (line 115); `cancelFired` models the
`closeOnce` guard of `Machine.Cancel` (lines 216–222); `queue` models the
buffered `workerChan` (capacity `max`, line 125); `workerExited` records
that the dispatch goroutine of `New` has returned (lines 136–162);
`workerId` is the uuid handed to the `machine.worker.queue` routine. -/
structure St where
  ctxDone : Bool
  cancelFired : Bool
  workerExited : Bool
  workerId : String
  routines : List Routine0
  errs : List String
  queue : List Wk
  max : Nat
deriving Repr, DecidableEq

/-- `opts.MaxRoutines <= 0` defaults to `10000` (part_000 lines 112–114). -/
def newMax (n : Int) : Nat :=
  if n ≤ 0 then 10000 else n.toNat

/-- `Machine.routines` is a Go map keyed by id; writing under an existing
key overwrites the entry (`m.routines[id] = routine`). -/
def tblPut (r : Routine0) (tbl : List Routine0) : List Routine0 :=
  if tbl.any (fun x => x.id == r.id) then
    tbl.map (fun x => if x.id == r.id then r else x)
  else tbl ++ [r]

/-- `Machine.closeRoutine` (part_000 lines 202–206): `delete(p.routines, id)`. -/
def tblDel (id : String) (tbl : List Routine0) : List Routine0 :=
  tbl.filter (fun x => x.id != id)

/-- `Machine.Current` (part_000 lines 166–171): the size of the routine
table (part_000 has no children). -/
def current0 (s : St) : Nat :=
  s.routines.length

/-- `Machine.Cancel` (part_000 lines 216–222): under `closeOnce`, invoke
the root cancel function, which makes the root context — and every
context derived from it — done. -/
def Cancel (s : St) : St :=
  if s.cancelFired then s else { s with cancelFired := true, ctxDone := true }

/-- `New` (part_000 lines 108–164): builds the machine, then registers a
routine tagged `machine.worker.queue` for the dispatch goroutine
(lines 131–135).  The `addRoutine` admission wait (line 175) passes
immediately here because the table is empty and `max ≥ 1`.  `wid` stands
for the uuid generated for this routine (line 177). -/
def New (n : Int) (wid : String) : St :=
  { ctxDone := false
    cancelFired := false
    workerExited := false
    workerId := wid
    routines := [{ id := wid, tags := ["machine.worker.queue"], res := FnRes.ok }]
    errs := []
    queue := []
    max := newMax n }

/-- The events (goroutine steps) of the part_000 system.  `go` is a call
to `Machine.Go`; `dispatch` is one iteration of the dispatch loop taking a
work item from `workerChan` (the argument is the uuid generated for it);
`finish` is the launch wrapper of an admitted routine running to
completion; `workerExit` is the dispatch loop returning on
`child1.Done()`; `cancel` is an external call to `Machine.Cancel`. -/
inductive Ev0 where
  | go : Wk → Ev0
  | dispatch : String → Ev0
  | finish : String → Ev0
  | workerExit : Ev0
  | cancel : Ev0
deriving Repr, DecidableEq

/-- One step of the part_000 system.

* `go w` — `Machine.Go` (lines 191–196): an unconditional send on the
  buffered `workerChan`; there is no context check, so it also succeeds
  on a cancelled machine while the buffer has room (and blocks — no
  state change — when full).
* `dispatch id` — the dispatch loop (lines 143–148) receives a work item
  (only while the loop is still running) and calls `addRoutine`
  (lines 173–185), whose wait loop `for x >= p.max && p.ctx.Err() == nil`
  exits when the table is below `max` OR the root context is done; the
  new routine is then written into the map.
* `finish id` — the launched wrapper (lines 149–159) of an admitted
  routine (never the worker-queue entry): on a `Cancel`-caused error it
  calls `m.Cancel()`, on any other error it appends to `errs`
  (`addErr`, lines 198–200), and in every case `closeRoutine` deletes
  the table entry.
* `workerExit` — the dispatch loop returns once `child1` is done (which
  happens exactly when the root context is done, line 141), and its
  deferred `closeRoutine` removes the worker-queue entry (line 137).
* `cancel` — `Machine.Cancel` (lines 216–222). -/
def step0 (s : St) : Ev0 → St
  | .go w => if s.queue.length < s.max then { s with queue := s.queue ++ [w] } else s
  | .dispatch id =>
    if s.workerExited then s else
    match s.queue with
    | [] => s
    | w :: rest =>
      if s.routines.length < s.max ∨ s.ctxDone = true then
        { s with queue := rest, routines := tblPut { id := id, tags := w.tags, res := w.res } s.routines }
      else s
  | .finish id =>
    if id = s.workerId then s else
    match s.routines.find? (fun r => r.id == id) with
    | none => s
    | some r =>
      let s1 : St :=
        match r.res with
        | .ok => s
        | .cancelSig => Cancel s
        | .other msg => { s with errs := s.errs ++ [msg] }
      { s1 with routines := tblDel id s1.routines }
  | .workerExit =>
    if s.ctxDone && !s.workerExited then
      { s with workerExited := true, routines := tblDel s.workerId s.routines }
    else s
  | .cancel => Cancel s

/-- Running the part_000 system over an event sequence. -/
def run0 (s : St) (evs : List Ev0) : St :=
  evs.foldl step0 s

/-- `Machine.Wait` (part_000 lines 208–213) under a quiescent execution
(no concurrent goroutine changes `Current()`): the loop
`for !(p.Current() > 0) { }` spins while `Current() == 0` and exits as
soon as `Current() > 0`; then `p.Cancel()` runs and `p.errs` is
returned.  `none` models the call never returning. -/
def WaitQ (s : St) : Option (St × List String) :=
  if 0 < current0 s then some (Cancel s, s.errs) else none

/-- `goRoutine.Tags` (part_000 lines 65–67) reads
`return r.Tags()` — the method calls itself instead of returning the
stored `r.tags` field.  Fuel-indexed evaluation of that self-call: with
any finite call depth, no value is ever produced. -/
def TagsEval : Nat → Routine0 → Option (List String)
  | 0, _ => none
  | fuel + 1, r => TagsEval fuel r

/-- The channels of part_000 and who can receive on them.
`workerChan` is received by the dispatch loop in `New` (line 143).
A subscription lane created by `goRoutine.Subscribe` (lines 89–101) is
returned to the calling routine, which can receive on it.  The channel
`publishChan[channel]` (created lazily by `goRoutine.Publish`,
lines 77–87) is an unexported field that is never returned and is never
on the receiving side of any `<-` in the package: no code receives
from it. -/
inductive ChanId where
  | workerChan : ChanId
  | publishChan : String → ChanId
  | subLane : String → String → ChanId
deriving Repr, DecidableEq

/-- Whether any code in the program (or holding a handle the program
gave out) can receive on the given channel; justified line by line in
the doc comment of `ChanId`. -/
def hasReceiver : ChanId → Bool
  | .workerChan => true
  | .publishChan _ => false
  | .subLane _ _ => true

/-- `goRoutine.Publish` (part_000 lines 77–87) ends with an unbuffered
send `g.machine.publishChan[channel] <- obj`.  An unbuffered send
completes only by rendezvous with a receiver on the same channel, so
`Publish` on `channel` can complete only if `publishChan[channel]` has a
receiver. -/
def publishCompletes (channel : String) : Bool :=
  hasReceiver (ChanId.publishChan channel)

end P0

namespace Mgo

/-- Result of a submitted `Func`, as documented on `Machine.Go`
(machine.go lines 93–96): `nil`, an error whose cause is
`machine.Cancel`, or any other error. -/
inductive FnRes where
  | ok : FnRes
  | errCancel : FnRes
  | errOther : String → FnRes
deriving Repr, DecidableEq

/-- The state of one machine.go `Machine` (struct at lines 15–31),
restricted to a single instance (children live in the tree model
below).  `routines` is the key set of the `map[int]Routine` table;
`queue` models the unbuffered `workQueue` together with the submissions
currently blocked on it, in FIFO order; `ctxDone` models
`m.ctx.Err() != nil` for the root context created in `New` (line 51);
`total` is the `total` counter (line 30). -/
structure MState where
  routines : List Nat
  total : Nat
  max : Nat
  ctxDone : Bool
  queue : List Nat
deriving Repr, DecidableEq

/-- `New` (machine.go lines 34–70): `maxRoutines <= 0` defaults to
`10000` (lines 39–41); the table starts empty and `total` at zero. -/
def initM (n : Int) : MState :=
  { routines := []
    total := 0
    max := if n ≤ 0 then 10000 else n.toNat
    ctxDone := false
    queue := [] }

/-- The routine table is a Go map keyed by `int`; inserting an existing
key overwrites the entry (`m.routines[w.opts.id] = routine`, line 146),
leaving the key set unchanged. -/
def tblInsert (id : Nat) (tbl : List Nat) : List Nat :=
  if id ∈ tbl then tbl else tbl ++ [id]

/-- Removal of a routine id from the table (`routine.done()`, run by the
launch wrapper's `defer` at line 156). -/
def tblErase (id : Nat) (tbl : List Nat) : List Nat :=
  tbl.filter (fun x => x != id)

/-- The events of the single-machine machine.go system.  `go` is a call
to `Machine.Go` (the argument is the resolved routine id, line 124–126);
`dispatch` is one iteration of `Machine.serve` admitting the head of the
queue; `finish` is `routine.done()` at the end of a launch wrapper;
`cancelRoot` is the root cancel function being invoked. -/
inductive Ev where
  | go : Nat → Ev
  | dispatch : Ev
  | finish : Nat → Ev
  | cancelRoot : Ev
deriving Repr, DecidableEq

/-- One step of the machine.go system.

* `go id` — `Machine.Go` (lines 97–108): only `if m.ctx.Err() == nil`
  is the work item sent on `workQueue`; on a done context nothing is
  enqueued and no error is surfaced (`Go` returns nothing).
* `dispatch` — `Machine.serve` (lines 110–161): takes the next work item,
  busy-waits at lines 121–123 `for x := m.Current(); x >= m.max; ...`
  (no escape: admission is possible only while the active count is
  strictly below `max`), inserts the routine into the table (line 146)
  and increments `total` (line 148).
* `finish id` — the launched wrapper returns and its deferred
  `routine.done()` removes the table entry; the wrapper (lines 149–158)
  inspects nothing else, see `launchWrapper` below.
* `cancelRoot` — `p.cancel()` inside `Machine.Cancel` (line 175) makes
  the root context done. -/
def stepF (s : MState) : Ev → MState
  | .go id => if s.ctxDone then s else { s with queue := s.queue ++ [id] }
  | .dispatch =>
    match s.queue with
    | [] => s
    | w :: rest =>
      if s.routines.length < s.max then
        { s with queue := rest, routines := tblInsert w s.routines, total := s.total + 1 }
      else s
  | .finish id => { s with routines := tblErase id s.routines }
  | .cancelRoot => { s with ctxDone := true }

/-- Running the machine.go system over an event sequence. -/
def runA (s : MState) (evs : List Ev) : MState :=
  evs.foldl stepF s

/-- The number of work items actually admitted (dequeued) along an
event sequence: only the `dispatch` branch of `stepF` shortens the queue,
by exactly one item. -/
def admCount : MState → List Ev → Nat
  | _, [] => 0
  | s, e :: evs => (s.queue.length - (stepF s e).queue.length) + admCount (stepF s e) evs

/-- The goroutine launched by `Machine.serve` at admission
(machine.go lines 149–158): it recovers a panic, its deferred
`routine.done()` removes the routine from the table — and it calls
`w.fn(routine)` discarding the returned value.  The machine.go
`Machine` has no error slice and `Wait` (lines 164–169) returns
nothing, so the branch on a `machine.Cancel`-caused error promised by
the doc comment of `Go` (lines 95–96) does not exist: the result `res`
is dead. -/
def launchWrapper (res : FnRes) (id : Nat) (s : MState) : MState :=
  { s with routines := tblErase id s.routines }

/-- `Machine.Wait` (machine.go lines 164–169) under a quiescent
execution: the loop `for m.Current() > 0` (with its inner spin on
`len(m.workQueue)`) exits only once the active count is zero, and the
function then simply returns — it invokes no cancel function and
changes no state.  `none` models the call never returning. -/
def WaitQ (s : MState) : Option Unit :=
  if s.routines.length = 0 then some () else none

/-- Per-machine state for the machine.go parent/child tree
(machine.go struct lines 15–31).  `cancelFired` is the `closeOnce`
guard consumed by `Machine.Cancel` (line 173); `closeFired` is the
`doneOnce` guard consumed by `Machine.Close` (line 208);
`loopStopped` records that `m.done <- struct{}{}` (line 210) has made
`serve` return; `cacheCloseCount` and `busCloseCount` count the calls
to `m.cache.Close()` and `m.pubsub.Close()` (lines 211–212);
`routinesLen` is the size of the routine table and `total` the `total`
counter, read by `Current` and `Total`.  A machine's context is done
iff its own or some ancestor's cancel function has fired (`Sub`
derives the child's root context from `m.ctx`, line 222). -/
structure NodeSt where
  cancelFired : Bool
  closeFired : Bool
  loopStopped : Bool
  cacheCloseCount : Nat
  busCloseCount : Nat
  routinesLen : Nat
  total : Nat
deriving Repr, DecidableEq

/-- A machine.go `Machine` together with its `children` slice
(populated by `Sub`, lines 220–227). -/
inductive MachineT where
  | node : NodeSt → List MachineT → MachineT

/-- The node state of a machine. -/
def rootSt : MachineT → NodeSt
  | .node s _ => s

/-- The `children` slice of a machine. -/
def childrenOf : MachineT → List MachineT
  | .node _ ch => ch

mutual
/-- `Machine.Close` (machine.go lines 206–217): under `doneOnce` it
runs `m.Cancel()` (which sets the `closeOnce` guard and, when not yet
consumed, closes every child), signals `m.done` (stopping `serve`),
closes the cache and the pubsub bus, and closes every child.  A child
is closed both inside `m.Cancel()` and again by the loop at
lines 213–215; the second call finds the child's `doneOnce` consumed
and is a no-op (the guard below), so the embedding closes each child
once. -/
def Close : MachineT → MachineT
  | .node s ch =>
    if s.closeFired then .node s ch
    else
      let s2 : NodeSt :=
        { s with
          closeFired := true
          cancelFired := true
          loopStopped := true
          cacheCloseCount := s.cacheCloseCount + 1
          busCloseCount := s.busCloseCount + 1 }
      .node s2 (closeAll ch)

/-- `for _, child := range m.children { child.Close() }`. -/
def closeAll : List MachineT → List MachineT
  | [] => []
  | c :: cs => Close c :: closeAll cs
end

/-- `Machine.Cancel` (machine.go lines 171–181): under `closeOnce` it
invokes the root cancel function `p.cancel()` (making its own context,
and every context derived from it, done) and then calls
`child.Close()` — not `child.Cancel()` — on every child
(lines 176–178).  It touches neither `m.done` nor `m.cache` nor
`m.pubsub` of the receiver. -/
def Cancel : MachineT → MachineT
  | .node s ch =>
    if s.cancelFired then .node s ch
    else .node { s with cancelFired := true } (closeAll ch)

mutual
/-- Whether every context in the tree is done, given whether some
ancestor's cancel function has fired: a node's context is done iff its
own cancel fired or an ancestor's did (Go contexts derived with
`context.WithCancel` become done when any ancestor is cancelled). -/
def allCtxDone : Bool → MachineT → Bool
  | anc, .node s ch => (anc || s.cancelFired) && allCtxDoneL (anc || s.cancelFired) ch

/-- `allCtxDone` over a list of children. -/
def allCtxDoneL : Bool → List MachineT → Bool
  | _, [] => true
  | anc, c :: cs => allCtxDone anc c && allCtxDoneL anc cs
end

mutual
/-- `Machine.Current` (machine.go lines 77–86): the machine's own table
size plus the `Current()` of every child. -/
def CurrentTr : MachineT → Nat
  | .node s ch => s.routinesLen + CurrentTrL ch

/-- Sum of `Current()` over the `children` slice. -/
def CurrentTrL : List MachineT → Nat
  | [] => 0
  | c :: cs => CurrentTr c + CurrentTrL cs
end

/-- `Machine.Total` (machine.go lines 88–91): reads only the machine's
own `total` counter — no recursion over children. -/
def TotalTr : MachineT → Nat
  | .node s _ => s.total

/-- Sanity condition on flag states, true of every reachable machine:
a child whose `doneOnce` has been consumed (it was closed) also had its
`closeOnce` consumed, since `Close` runs `m.Cancel()` first. -/
def childrenWF (m : MachineT) : Bool :=
  (childrenOf m).all (fun c => !(rootSt c).closeFired || (rootSt c).cancelFired)

end Mgo

namespace Mgo

/-- Unfolding equation for `Cancel`. -/
theorem Cancel_eq (s : NodeSt) (ch : List MachineT) :
    Cancel (.node s ch) =
      if s.cancelFired then .node s ch
      else .node { s with cancelFired := true } (closeAll ch) := rfl

/-- Unfolding equation for `Close`. -/
theorem Close_eq (s : NodeSt) (ch : List MachineT) :
    Close (.node s ch) =
      if s.closeFired then .node s ch
      else
        .node { s with
                closeFired := true, cancelFired := true, loopStopped := true,
                cacheCloseCount := s.cacheCloseCount + 1,
                busCloseCount := s.busCloseCount + 1 }
          (closeAll ch) := rfl

/-- Unfolding equation for `allCtxDone`. -/
theorem allCtxDone_eq (anc : Bool) (s : NodeSt) (ch : List MachineT) :
    allCtxDone anc (.node s ch) =
      ((anc || s.cancelFired) && allCtxDoneL (anc || s.cancelFired) ch) := rfl

mutual
/-- Once an ancestor cancel has fired, every context below is done. -/
def allCtxDone_of_anc : (m : MachineT) → allCtxDone true m = true
  | .node s ch => by
    rw [allCtxDone_eq, Bool.true_or, Bool.true_and]
    exact allCtxDoneL_of_anc ch

/-- List version of `allCtxDone_of_anc`. -/
def allCtxDoneL_of_anc : (l : List MachineT) → allCtxDoneL true l = true
  | [] => rfl
  | c :: cs => by
    show (allCtxDone true c && allCtxDoneL true cs) = true
    rw [allCtxDone_of_anc c, allCtxDoneL_of_anc cs]
    rfl
end

/-- `Close` always leaves the node's `closeOnce` guard consumed. -/
theorem Close_cancelFired (c : MachineT)
    (h : (!(rootSt c).closeFired || (rootSt c).cancelFired) = true) :
    (rootSt (Close c)).cancelFired = true := by
  obtain ⟨s, ch⟩ := c
  rw [Close_eq]
  by_cases hf : s.closeFired
  · simp only [hf, if_true]
    simp only [rootSt] at h ⊢
    simpa [hf] using h
  · simp [hf, rootSt]

/-- Children that satisfy the reachable-flag condition all have their
cancel guard consumed after `child.Close()`. -/
theorem closeAll_cancelFired : ∀ (l : List MachineT),
    (l.all fun c => !(rootSt c).closeFired || (rootSt c).cancelFired) = true →
    ((closeAll l).all fun c => (rootSt c).cancelFired) = true := by
  intro l
  induction l with
  | nil => intro _; rfl
  | cons c cs ih =>
    intro h
    simp only [List.all_cons, Bool.and_eq_true] at h
    obtain ⟨hc, hcs⟩ := h
    show ((rootSt (Close c)).cancelFired && (closeAll cs).all _) = true
    rw [Close_cancelFired c hc, ih hcs]
    rfl

/-- `tblInsert` grows the table by at most one entry. -/
theorem tblInsert_length (id : Nat) (t : List Nat) :
    (tblInsert id t).length ≤ t.length + 1 := by
  unfold tblInsert
  split
  · exact Nat.le_succ _
  · simp

/-- `tblErase` never grows the table. -/
theorem tblErase_length (id : Nat) (t : List Nat) :
    (tblErase id t).length ≤ t.length :=
  List.length_filter_le _ _

/-- Every step preserves the concurrency ceiling `max`. -/
theorem stepF_max (s : MState) (e : Ev) : (stepF s e).max = s.max := by
  cases e with
  | go id => simp only [stepF]; split <;> rfl
  | dispatch =>
    simp only [stepF]
    split
    · rfl
    · split <;> rfl
  | finish id => rfl
  | cancelRoot => rfl

/-- Every step preserves the table-size bound `Current ≤ max`. -/
theorem stepF_len (s : MState) (e : Ev) (h : s.routines.length ≤ s.max) :
    (stepF s e).routines.length ≤ s.max := by
  cases e with
  | go id => simp only [stepF]; split <;> exact h
  | dispatch =>
    simp only [stepF]
    split
    · exact h
    · split
      · next hlt =>
        exact le_trans (tblInsert_length _ _) hlt
      · exact h
  | finish id => exact le_trans (tblErase_length _ _) h
  | cancelRoot => exact h

/-- `runA` on a cons. -/
theorem runA_cons (s : MState) (e : Ev) (evs : List Ev) :
    runA s (e :: evs) = runA (stepF s e) evs := rfl

/-- The ceiling is preserved along any run. -/
theorem runA_max : ∀ (evs : List Ev) (s : MState), (runA s evs).max = s.max := by
  intro evs
  induction evs with
  | nil => intro s; rfl
  | cons e evs ih => intro s; rw [runA_cons, ih, stepF_max]

/-- The table-size bound is an invariant of the machine.go system. -/
theorem runA_len : ∀ (evs : List Ev) (s : MState),
    s.routines.length ≤ s.max → (runA s evs).routines.length ≤ s.max := by
  intro evs
  induction evs with
  | nil => intro s h; exact h
  | cons e evs ih =>
    intro s h
    rw [runA_cons]
    have h2 := stepF_len s e h
    rw [← stepF_max s e] at h2
    simpa [stepF_max] using ih (stepF s e) h2

/-- Each step raises `total` by exactly the number of work items it
dequeues (one for an effective admission, zero otherwise). -/
theorem stepF_total (s : MState) (e : Ev) :
    (stepF s e).total = s.total + (s.queue.length - (stepF s e).queue.length) := by
  cases e with
  | go id =>
    simp only [stepF]
    split
    · omega
    · show s.total = s.total + (s.queue.length - (s.queue ++ [id]).length)
      simp only [List.length_append, List.length_cons, List.length_nil]
      omega
  | dispatch =>
    simp only [stepF]
    split
    · omega
    · next w rest heq =>
      split
      · show s.total + 1 = s.total + (s.queue.length - rest.length)
        rw [heq]
        simp only [List.length_cons]
        omega
      · omega
  | finish id =>
    show s.total = s.total + (s.queue.length - s.queue.length)
    omega
  | cancelRoot =>
    show s.total = s.total + (s.queue.length - s.queue.length)
    omega

/-- `total` after a run is the starting `total` plus the number of
admitted work items. -/
theorem runA_total : ∀ (evs : List Ev) (s : MState),
    (runA s evs).total = s.total + admCount s evs := by
  intro evs
  induction evs with
  | nil => intro s; simp [runA, admCount]
  | cons e evs ih =>
    intro s
    rw [runA_cons, ih, admCount, stepF_total]
    omega

end Mgo

namespace P0

/-- `Cancel` preserves a done context. -/
theorem Cancel_ctxDone (s : St) (h : s.ctxDone = true) : (Cancel s).ctxDone = true := by
  unfold Cancel
  split
  · exact h
  · rfl

/-- `Cancel` touches no routine table. -/
theorem Cancel_routines (s : St) : (Cancel s).routines = s.routines := by
  unfold Cancel
  split <;> rfl

/-- `Cancel` preserves the ceiling. -/
theorem Cancel_max (s : St) : (Cancel s).max = s.max := by
  unfold Cancel
  split <;> rfl

/-- `Cancel` preserves the worker id. -/
theorem Cancel_workerId (s : St) : (Cancel s).workerId = s.workerId := by
  unfold Cancel
  split <;> rfl

/-- Every step preserves the ceiling `max`. -/
theorem step0_max (s : St) (e : Ev0) : (step0 s e).max = s.max := by
  cases e <;> simp only [step0, Cancel] <;>
    repeat first
      | rfl
      | split

/-- Every step preserves the worker id. -/
theorem step0_workerId (s : St) (e : Ev0) : (step0 s e).workerId = s.workerId := by
  cases e <;> simp only [step0, Cancel] <;>
    repeat first
      | rfl
      | split

/-- No step revives a done root context. -/
theorem step0_ctxDone (s : St) (e : Ev0) (h : s.ctxDone = true) :
    (step0 s e).ctxDone = true := by
  cases e <;> simp only [step0, Cancel] <;>
    repeat first
      | exact h
      | rfl
      | split

/-- Contrapositive of `step0_ctxDone`. -/
theorem step0_ctxDone_false (s : St) (e : Ev0) (h : (step0 s e).ctxDone = false) :
    s.ctxDone = false := by
  by_contra hx
  have hy : s.ctxDone = true := by
    cases hz : s.ctxDone
    · exact absurd hz hx
    · rfl
  rw [step0_ctxDone s e hy] at h
  exact Bool.noConfusion h

/-- `tblPut` grows the table by at most one entry. -/
theorem tblPut_length (r : Routine0) (t : List Routine0) :
    (tblPut r t).length ≤ t.length + 1 := by
  unfold tblPut
  split
  · simp only [List.length_map]
    omega
  · simp only [List.length_append, List.length_cons, List.length_nil]
    omega

/-- `tblDel` never grows the table. -/
theorem tblDel_length (id : String) (t : List Routine0) :
    (tblDel id t).length ≤ t.length :=
  List.length_filter_le _ _

/-- An entry with a given id survives a map write (`tblPut`). -/
theorem tblPut_keeps (x : Routine0) (t : List Routine0) (wid : String)
    (h : ∃ r ∈ t, r.id = wid) : ∃ r ∈ tblPut x t, r.id = wid := by
  obtain ⟨r, hr, hid⟩ := h
  unfold tblPut
  split
  · refine ⟨if r.id == x.id then x else r, List.mem_map_of_mem _ hr, ?_⟩
    by_cases hbe : r.id = x.id
    · simp only [hbe, beq_self_eq_true, if_true]
      rw [← hbe]
      exact hid
    · rw [if_neg ?hc]
      case hc => simpa using hbe
      exact hid
  · exact ⟨r, List.mem_append_left _ hr, hid⟩

/-- An entry with a different id survives a map delete (`tblDel`). -/
theorem tblDel_keeps (idd : String) (t : List Routine0) (wid : String)
    (hne : idd ≠ wid) (h : ∃ r ∈ t, r.id = wid) :
    ∃ r ∈ tblDel idd t, r.id = wid := by
  obtain ⟨r, hr, hid⟩ := h
  refine ⟨r, ?_, hid⟩
  unfold tblDel
  refine List.mem_filter.mpr ⟨hr, ?_⟩
  exact bne_iff_ne.mpr (by rw [hid]; exact Ne.symm hne)

end P0

namespace P0

/-- One step preserves the invariant "while the root context is not
done, the table size is within the ceiling". -/
theorem step0_bound (s : St) (e : Ev0)
    (h : s.ctxDone = false → current0 s ≤ s.max) :
    (step0 s e).ctxDone = false → current0 (step0 s e) ≤ (step0 s e).max := by
  intro hdone
  have hpre : s.ctxDone = false := step0_ctxDone_false s e hdone
  have hcur : current0 s ≤ s.max := h hpre
  rw [step0_max]
  cases e with
  | go w =>
    simp only [step0]
    split <;> exact hcur
  | dispatch id =>
    simp only [step0]
    split
    · exact hcur
    · split
      · exact hcur
      · next w rest heq =>
        split
        · next hguard =>
          have hlt : s.routines.length < s.max := by
            rcases hguard with h1 | h1
            · exact h1
            · rw [hpre] at h1
              exact Bool.noConfusion h1
          exact le_trans (tblPut_length _ _) hlt
        · exact hcur
  | finish id =>
    simp only [step0]
    split
    · exact hcur
    · split
      · exact hcur
      · next r heq =>
        cases hr : r.res with
        | ok =>
          show (tblDel id s.routines).length ≤ s.max
          exact le_trans (tblDel_length _ _) hcur
        | cancelSig =>
          show (tblDel id (Cancel s).routines).length ≤ s.max
          rw [Cancel_routines]
          exact le_trans (tblDel_length _ _) hcur
        | other msg =>
          show (tblDel id s.routines).length ≤ s.max
          exact le_trans (tblDel_length _ _) hcur
  | workerExit =>
    simp only [step0]
    split
    · show (tblDel s.workerId s.routines).length ≤ s.max
      exact le_trans (tblDel_length _ _) hcur
    · exact hcur
  | cancel =>
    show current0 (Cancel s) ≤ s.max
    unfold current0
    rw [Cancel_routines]
    exact hcur

/-- `run0` on a cons. -/
theorem run0_cons (s : St) (e : Ev0) (evs : List Ev0) :
    run0 s (e :: evs) = run0 (step0 s e) evs := rfl

/-- The ceiling is preserved along any run. -/
theorem run0_max : ∀ (evs : List Ev0) (s : St), (run0 s evs).max = s.max := by
  intro evs
  induction evs with
  | nil => intro s; rfl
  | cons e evs ih => intro s; rw [run0_cons, ih, step0_max]

/-- The worker id is preserved along any run. -/
theorem run0_workerId : ∀ (evs : List Ev0) (s : St),
    (run0 s evs).workerId = s.workerId := by
  intro evs
  induction evs with
  | nil => intro s; rfl
  | cons e evs ih => intro s; rw [run0_cons, ih, step0_workerId]

/-- The ceiling invariant holds along any run. -/
theorem run0_bound : ∀ (evs : List Ev0) (s : St),
    (s.ctxDone = false → current0 s ≤ s.max) →
    ((run0 s evs).ctxDone = false → current0 (run0 s evs) ≤ (run0 s evs).max) := by
  intro evs
  induction evs with
  | nil => intro s h; exact h
  | cons e evs ih =>
    intro s h
    rw [run0_cons]
    exact ih (step0 s e) (step0_bound s e h)

/-- One step preserves the invariant "while the root context is not
done, the worker-queue routine is registered in the table". -/
theorem step0_worker (s : St) (e : Ev0)
    (h : s.ctxDone = false → ∃ r ∈ s.routines, r.id = s.workerId) :
    (step0 s e).ctxDone = false →
    ∃ r ∈ (step0 s e).routines, r.id = (step0 s e).workerId := by
  intro hdone
  have hpre : s.ctxDone = false := step0_ctxDone_false s e hdone
  have hm : ∃ r ∈ s.routines, r.id = s.workerId := h hpre
  rw [step0_workerId]
  cases e with
  | go w =>
    simp only [step0]
    split <;> exact hm
  | dispatch id =>
    simp only [step0]
    split
    · exact hm
    · split
      · exact hm
      · split
        · exact tblPut_keeps _ _ _ hm
        · exact hm
  | finish id =>
    simp only [step0]
    split
    · exact hm
    · next hni =>
      split
      · exact hm
      · next r heq =>
        cases hr : r.res with
        | ok =>
          show ∃ x ∈ tblDel id s.routines, x.id = s.workerId
          exact tblDel_keeps _ _ _ hni hm
        | cancelSig =>
          by_cases hcf : s.cancelFired
          · show ∃ x ∈ tblDel id (Cancel s).routines, x.id = s.workerId
            rw [Cancel_routines]
            exact tblDel_keeps _ _ _ hni hm
          · exfalso
            have : (step0 s (Ev0.finish id)).ctxDone = true := by
              simp only [step0]
              rw [if_neg hni, heq]
              simp only [hr]
              show (Cancel s).ctxDone = true
              unfold Cancel
              rw [if_neg hcf]
            rw [this] at hdone
            exact Bool.noConfusion hdone
        | other msg =>
          show ∃ x ∈ tblDel id s.routines, x.id = s.workerId
          exact tblDel_keeps _ _ _ hni hm
  | workerExit =>
    simp only [step0]
    split
    · next hguard =>
      exfalso
      rw [hpre] at hguard
      exact Bool.noConfusion hguard
    · exact hm
  | cancel =>
    by_cases hcf : s.cancelFired
    · show ∃ r ∈ (Cancel s).routines, r.id = s.workerId
      rw [Cancel_routines]
      exact hm
    · exfalso
      have : (Cancel s).ctxDone = true := by
        unfold Cancel
        rw [if_neg hcf]
      rw [show (step0 s Ev0.cancel).ctxDone = (Cancel s).ctxDone from rfl, this] at hdone
      exact Bool.noConfusion hdone

/-- The worker-routine invariant holds along any run. -/
theorem run0_worker : ∀ (evs : List Ev0) (s : St),
    (s.ctxDone = false → ∃ r ∈ s.routines, r.id = s.workerId) →
    ((run0 s evs).ctxDone = false →
      ∃ r ∈ (run0 s evs).routines, r.id = (run0 s evs).workerId) := by
  intro evs
  induction evs with
  | nil => intro s h; exact h
  | cons e evs ih =>
    intro s h
    rw [run0_cons]
    exact ih (step0 s e) (step0_worker s e h)

end P0

/-! Concrete instances used by the counterexamples and witnesses below. -/

/-- Event sequence for the C2 counterexample: ceiling 2; one unit that
reports the `Cancel` signal, then two plain units admitted after the
root context is done. -/
def c2cex : List P0.Ev0 :=
  [P0.Ev0.go { res := P0.FnRes.cancelSig, tags := [] },
   P0.Ev0.dispatch "a",
   P0.Ev0.go { res := P0.FnRes.ok, tags := [] },
   P0.Ev0.go { res := P0.FnRes.ok, tags := [] },
   P0.Ev0.finish "a",
   P0.Ev0.dispatch "b",
   P0.Ev0.dispatch "c"]

/-- A part_000 machine with one admitted unit that reports the
`Cancel` signal. -/
def c3cancelSt : P0.St :=
  P0.run0 (P0.New 5 "w")
    [P0.Ev0.go { res := P0.FnRes.cancelSig, tags := [] }, P0.Ev0.dispatch "a"]

/-- A part_000 machine with one admitted unit that reports an ordinary
error. -/
def c3otherSt : P0.St :=
  P0.run0 (P0.New 5 "w")
    [P0.Ev0.go { res := P0.FnRes.other "boom", tags := [] }, P0.Ev0.dispatch "a"]

/-- A machine.go machine with one admitted routine (id 7). -/
def c3mgoSt : Mgo.MState :=
  Mgo.runA (Mgo.initM 5) [Mgo.Ev.go 7, Mgo.Ev.dispatch]

/-- A machine.go machine whose root context is done. -/
def c5mgoSt : Mgo.MState :=
  Mgo.runA (Mgo.initM 2) [Mgo.Ev.cancelRoot]

/-- A cancelled part_000 machine. -/
def c5p0St : P0.St :=
  P0.Cancel (P0.New 2 "w")

/-- A part_000 machine whose dispatch loop has exited. -/
def c5wexSt : P0.St :=
  P0.run0 (P0.New 2 "w") [P0.Ev0.cancel, P0.Ev0.workerExit]

/-- A machine.go node with no effect recorded yet. -/
def freshNode : Mgo.NodeSt :=
  { cancelFired := false, closeFired := false, loopStopped := false,
    cacheCloseCount := 0, busCloseCount := 0, routinesLen := 0, total := 0 }

/-- A machine.go node that has already been closed. -/
def closedNode : Mgo.NodeSt :=
  { cancelFired := true, closeFired := true, loopStopped := true,
    cacheCloseCount := 1, busCloseCount := 1, routinesLen := 0, total := 3 }

/-- A parent with a fresh child and an already-closed child. -/
def c4tree : Mgo.MachineT :=
  .node freshNode [.node freshNode [], .node closedNode []]

/-- A fresh parent with one fresh child. -/
def c6tree : Mgo.MachineT :=
  .node freshNode [.node freshNode []]

/-! The claims. -/

/-- Claim C1 — "wait() blocks the caller until the active count reaches
zero, then triggers cancel(); it returns only after current() == 0 and
never returns while any unit is still registered."  The part_000 code
contradicts this: its loop guard is inverted (`for !(p.Current() > 0)`),
so immediately after `New` — when `Current()` is 1 because of the
worker-queue routine — `Wait` exits its loop at once, fires `Cancel`,
and returns while a unit is still registered (and with the root context
now done).  This theorem evaluates the embedded `Wait` at that state. -/
theorem claim_C1 :
    P0.current0 (P0.New 0 "w") = 1 ∧
    P0.WaitQ (P0.New 0 "w") = some (P0.Cancel (P0.New 0 "w"), []) ∧
    (P0.Cancel (P0.New 0 "w")).ctxDone = true := by
  refine ⟨by decide, by decide, by decide⟩

/-- Counterexample to claim C2 as stated: with ceiling `N = 2`, after a
unit reports the `Cancel` signal the part_000 dispatch loop can still
admit queued submissions past the ceiling (`addRoutine`'s wait loop also
exits when `ctx.Err() != nil`), and the observed active count reaches
3 > 2. -/
theorem claim_C2_cex :
    (P0.New 2 "w").max = 2 ∧
    2 < P0.current0 (P0.run0 (P0.New 2 "w") c2cex) := by
  refine ⟨by decide, by decide⟩

/-- Claim C2, amended — in the machine.go variant the active count of a
Scheduler never exceeds its ceiling along any event sequence; in the
part_000 variant the same bound holds as long as the root context is
not done (once it is cancelled, admissions may overshoot, see
`claim_C2_cex`). -/
theorem claim_C2 :
    (∀ (n : Int) (evs : List Mgo.Ev),
        (Mgo.runA (Mgo.initM n) evs).routines.length ≤ (Mgo.initM n).max) ∧
    (∀ (n : Int) (wid : String) (evs : List P0.Ev0),
        (P0.run0 (P0.New n wid) evs).ctxDone = false →
        P0.current0 (P0.run0 (P0.New n wid) evs) ≤ (P0.New n wid).max) := by
  constructor
  · intro n evs
    exact Mgo.runA_len evs (Mgo.initM n) (Nat.zero_le _)
  · intro n wid evs hdone
    have hpos : 1 ≤ P0.newMax n := by
      unfold P0.newMax
      split
      · omega
      · next h => omega
    have base : (P0.New n wid).ctxDone = false →
        P0.current0 (P0.New n wid) ≤ (P0.New n wid).max := by
      intro _
      exact hpos
    have h := P0.run0_bound evs (P0.New n wid) base hdone
    rw [P0.run0_max] at h
    exact h

/-- Witness for claim C2 at a concrete input. -/
theorem claim_C2_witness :
    (P0.run0 (P0.New 2 "w") []).ctxDone = false ∧
    P0.current0 (P0.run0 (P0.New 2 "w") []) ≤ (P0.New 2 "w").max :=
  ⟨by decide, claim_C2.2 2 "w" [] (by decide)⟩

/-- Claim C3 — "a unit returning the distinguished cancellation failure
makes the root context done; any other failure is recorded and cancels
nothing."  The machine.go code contradicts this (and its own doc
comment on `Go`): the launch wrapper calls `w.fn(routine)` discarding
the result, so a `machine.Cancel`-caused error has exactly the same
effect as a nil error — the root context stays alive and nothing is
recorded.  The part_000 wrapper does implement the claimed behaviour
(last two conjuncts). -/
theorem claim_C3 :
    (∀ (id : Nat) (s : Mgo.MState),
        Mgo.launchWrapper Mgo.FnRes.errCancel id s = Mgo.launchWrapper Mgo.FnRes.ok id s) ∧
    (∀ (id : Nat) (s : Mgo.MState),
        (Mgo.launchWrapper Mgo.FnRes.errCancel id s).ctxDone = s.ctxDone) ∧
    (Mgo.launchWrapper Mgo.FnRes.errCancel 7 c3mgoSt).ctxDone = false ∧
    (P0.step0 c3cancelSt (P0.Ev0.finish "a")).ctxDone = true ∧
    (P0.step0 c3otherSt (P0.Ev0.finish "a")).ctxDone = false ∧
    (P0.step0 c3otherSt (P0.Ev0.finish "a")).errs = ["boom"] := by
  refine ⟨fun id s => rfl, fun id s => rfl, by decide, by decide, by decide, by decide⟩

/-- Claim C4 — `cancel()` is idempotent with exactly-once effect: it
invokes the root cancel function, after which every context in the tree
is done; every child Scheduler has its cancel guard consumed (the code
in fact calls `child.Close()`); and the receiver's own dispatch loop,
cache and event bus are untouched.  `hwf` states the reachable-flag
condition that a closed child also had its cancel guard consumed;
`hfresh` states that this is the effective (first) call. -/
theorem claim_C4 (m : Mgo.MachineT)
    (hwf : Mgo.childrenWF m = true)
    (hfresh : (Mgo.rootSt m).cancelFired = false) :
    (Mgo.rootSt (Mgo.Cancel m)).cancelFired = true ∧
    Mgo.allCtxDone false (Mgo.Cancel m) = true ∧
    ((Mgo.childrenOf (Mgo.Cancel m)).all fun c => (Mgo.rootSt c).cancelFired) = true ∧
    (Mgo.rootSt (Mgo.Cancel m)).closeFired = (Mgo.rootSt m).closeFired ∧
    (Mgo.rootSt (Mgo.Cancel m)).loopStopped = (Mgo.rootSt m).loopStopped ∧
    (Mgo.rootSt (Mgo.Cancel m)).cacheCloseCount = (Mgo.rootSt m).cacheCloseCount ∧
    (Mgo.rootSt (Mgo.Cancel m)).busCloseCount = (Mgo.rootSt m).busCloseCount ∧
    Mgo.Cancel (Mgo.Cancel m) = Mgo.Cancel m := by
  obtain ⟨s, ch⟩ := m
  simp only [Mgo.rootSt] at hfresh
  rw [Mgo.Cancel_eq, if_neg (by simp [hfresh])]
  refine ⟨rfl, ?_, ?_, rfl, rfl, rfl, rfl, ?_⟩
  · rw [Mgo.allCtxDone_eq]
    show ((false || true) && Mgo.allCtxDoneL (false || true) (Mgo.closeAll ch)) = true
    rw [Bool.false_or, Bool.true_and]
    exact Mgo.allCtxDoneL_of_anc _
  · exact Mgo.closeAll_cancelFired ch hwf
  · rw [Mgo.Cancel_eq, if_pos (by rfl)]

/-- Witness for claim C4 at a concrete two-child tree. -/
theorem claim_C4_witness :
    (Mgo.childrenWF c4tree = true ∧ (Mgo.rootSt c4tree).cancelFired = false) ∧
    (Mgo.rootSt (Mgo.Cancel c4tree)).cancelFired = true ∧
    Mgo.allCtxDone false (Mgo.Cancel c4tree) = true :=
  ⟨⟨by decide, by decide⟩,
   (claim_C4 c4tree (by decide) (by decide)).1,
   (claim_C4 c4tree (by decide) (by decide)).2.1⟩

/-- Counterexample to claim C5 as stated: the part_000 `Go` has no
context check, so on a cancelled machine the submission is still
enqueued on the buffered worker channel — it is not dropped at submit
time. -/
theorem claim_C5_cex :
    c5p0St.ctxDone = true ∧
    (P0.step0 c5p0St (P0.Ev0.go { res := P0.FnRes.ok, tags := [] })).queue ≠ c5p0St.queue := by
  refine ⟨by decide, by decide⟩

/-- Claim C5, amended — in the machine.go variant, `Go` on a Machine
whose root context is done changes nothing at all (nothing enqueued, no
error surfaced, `current()`/`total()` unchanged).  In the part_000
variant, `Go` enqueues unconditionally — even on a cancelled machine —
leaving the routine table and error slice unchanged; and once the
dispatch loop has exited, queued work is never admitted. -/
theorem claim_C5 :
    (∀ (s : Mgo.MState) (id : Nat), s.ctxDone = true → Mgo.stepF s (Mgo.Ev.go id) = s) ∧
    (∀ (s : P0.St) (w : P0.Wk), s.ctxDone = true → s.queue.length < s.max →
        (P0.step0 s (P0.Ev0.go w)).queue = s.queue ++ [w] ∧
        (P0.step0 s (P0.Ev0.go w)).routines = s.routines ∧
        (P0.step0 s (P0.Ev0.go w)).errs = s.errs) ∧
    (∀ (s : P0.St) (id : String), s.workerExited = true →
        P0.step0 s (P0.Ev0.dispatch id) = s) := by
  refine ⟨?_, ?_, ?_⟩
  · intro s id h
    simp only [Mgo.stepF]
    rw [if_pos h]
  · intro s w _ hlen
    simp only [P0.step0]
    rw [if_pos hlen]
    exact ⟨rfl, rfl, rfl⟩
  · intro s id h
    simp only [P0.step0]
    rw [if_pos h]

/-- Witness for claim C5 at concrete machines. -/
theorem claim_C5_witness :
    (c5mgoSt.ctxDone = true ∧ Mgo.stepF c5mgoSt (Mgo.Ev.go 3) = c5mgoSt) ∧
    (c5p0St.ctxDone = true ∧ c5p0St.queue.length < c5p0St.max ∧
      (P0.step0 c5p0St (P0.Ev0.go { res := P0.FnRes.ok, tags := [] })).routines = c5p0St.routines) ∧
    (c5wexSt.workerExited = true ∧ P0.step0 c5wexSt (P0.Ev0.dispatch "z") = c5wexSt) :=
  ⟨⟨by decide, claim_C5.1 c5mgoSt 3 (by decide)⟩,
   ⟨by decide, by decide,
     (claim_C5.2.1 c5p0St { res := P0.FnRes.ok, tags := [] } (by decide) (by decide)).2.1⟩,
   ⟨by decide, claim_C5.2.2 c5wexSt "z" (by decide)⟩⟩

/-- Claim C6 — `close()` is idempotent: closing twice produces exactly
one teardown side effect; the receiver's cache is closed exactly once
and its event bus is closed exactly once (`doneOnce`). -/
theorem claim_C6 (m : Mgo.MachineT)
    (h1 : (Mgo.rootSt m).closeFired = false)
    (h2 : (Mgo.rootSt m).cacheCloseCount = 0)
    (h3 : (Mgo.rootSt m).busCloseCount = 0) :
    Mgo.Close (Mgo.Close m) = Mgo.Close m ∧
    (Mgo.rootSt (Mgo.Close (Mgo.Close m))).cacheCloseCount = 1 ∧
    (Mgo.rootSt (Mgo.Close (Mgo.Close m))).busCloseCount = 1 := by
  obtain ⟨s, ch⟩ := m
  simp only [Mgo.rootSt] at h1 h2 h3
  rw [Mgo.Close_eq, if_neg (by simp [h1])]
  rw [Mgo.Close_eq, if_pos (by rfl)]
  refine ⟨rfl, ?_, ?_⟩
  · show s.cacheCloseCount + 1 = 1
    rw [h2]
  · show s.busCloseCount + 1 = 1
    rw [h3]

/-- Witness for claim C6 at a concrete tree. -/
theorem claim_C6_witness :
    ((Mgo.rootSt c6tree).closeFired = false ∧
      (Mgo.rootSt c6tree).cacheCloseCount = 0 ∧
      (Mgo.rootSt c6tree).busCloseCount = 0) ∧
    Mgo.Close (Mgo.Close c6tree) = Mgo.Close c6tree ∧
    (Mgo.rootSt (Mgo.Close (Mgo.Close c6tree))).cacheCloseCount = 1 :=
  ⟨⟨by decide, by decide, by decide⟩,
   (claim_C6 c6tree (by decide) (by decide) (by decide)).1,
   (claim_C6 c6tree (by decide) (by decide) (by decide)).2.1⟩

/-- Claim C7 — `total()` only increases, counts exactly the units
admitted (one increment per dequeued work item, independent of
completions, which never change it), and is a per-Scheduler counter:
`Total` reads only the machine's own field while `Current` sums the
children's counts. -/
theorem claim_C7 :
    (∀ (s : Mgo.MState) (evs : List Mgo.Ev), s.total ≤ (Mgo.runA s evs).total) ∧
    (∀ (s : Mgo.MState) (evs : List Mgo.Ev),
        (Mgo.runA s evs).total = s.total + Mgo.admCount s evs) ∧
    (∀ (s : Mgo.MState) (id : Nat), (Mgo.stepF s (Mgo.Ev.finish id)).total = s.total) ∧
    (∀ (st : Mgo.NodeSt) (ch : List Mgo.MachineT),
        Mgo.TotalTr (Mgo.MachineT.node st ch) = st.total ∧
        Mgo.CurrentTr (Mgo.MachineT.node st ch) = st.routinesLen + Mgo.CurrentTrL ch) := by
  refine ⟨?_, ?_, ?_, ?_⟩
  · intro s evs
    rw [Mgo.runA_total]
    exact Nat.le_add_right _ _
  · intro s evs
    exact Mgo.runA_total evs s
  · intro s id
    rfl
  · intro st ch
    exact ⟨rfl, rfl⟩

/-- Claim C8 — a publish on a channel with zero registered subscriber
lanes blocks indefinitely, and publish returns only when a subscriber
lane accepts the value.  In part_000 this holds in the strongest form:
no code in the package ever receives from `publishChan[channel]`, so
the unbuffered send in `Publish` can never complete — it blocks with
zero subscribers, and "returns only when a lane accepts" holds
vacuously (it never returns at all, even with subscribers). -/
theorem claim_C8 : ∀ channel : String, P0.publishCompletes channel = false :=
  fun _ => rfl

/-- Claim C9 — in the part_000 variant, immediately after `New` (and
before any `Go`) the table holds exactly one routine, tagged
`machine.worker.queue`; and along any execution, while the root context
is not done that routine is still registered, so the active count of an
open machine never reaches zero. -/
theorem claim_C9 :
    (∀ (n : Int) (wid : String), P0.current0 (P0.New n wid) = 1) ∧
    (∀ (n : Int) (wid : String),
        (P0.New n wid).routines =
          [{ id := wid, tags := ["machine.worker.queue"], res := P0.FnRes.ok }]) ∧
    (∀ (n : Int) (wid : String) (evs : List P0.Ev0),
        (P0.run0 (P0.New n wid) evs).ctxDone = false →
        (∃ r ∈ (P0.run0 (P0.New n wid) evs).routines, r.id = wid) ∧
        0 < P0.current0 (P0.run0 (P0.New n wid) evs)) := by
  refine ⟨fun n wid => rfl, fun n wid => rfl, ?_⟩
  intro n wid evs hdone
  have base : (P0.New n wid).ctxDone = false →
      ∃ r ∈ (P0.New n wid).routines, r.id = (P0.New n wid).workerId := by
    intro _
    exact ⟨_, List.mem_singleton_self _, rfl⟩
  have h := P0.run0_worker evs (P0.New n wid) base hdone
  rw [P0.run0_workerId] at h
  constructor
  · exact h
  · obtain ⟨r, hr, _⟩ := h
    exact List.length_pos_of_mem hr

/-- Witness for claim C9 at a concrete input. -/
theorem claim_C9_witness :
    (P0.run0 (P0.New 1 "w") [P0.Ev0.go { res := P0.FnRes.ok, tags := [] }]).ctxDone = false ∧
    ((∃ r ∈ (P0.run0 (P0.New 1 "w") [P0.Ev0.go { res := P0.FnRes.ok, tags := [] }]).routines,
        r.id = "w") ∧
      0 < P0.current0 (P0.run0 (P0.New 1 "w") [P0.Ev0.go { res := P0.FnRes.ok, tags := [] }])) :=
  ⟨by decide,
   claim_C9.2.2 1 "w" [P0.Ev0.go { res := P0.FnRes.ok, tags := [] }] (by decide)⟩

/-- Claim C10 — in the part_000 variant, `goRoutine.Tags` never returns
a value: the method body is a call to itself, so evaluation with any
finite call depth produces nothing. -/
theorem claim_C10 : ∀ (fuel : Nat) (r : P0.Routine0), P0.TagsEval fuel r = none := by
  intro fuel
  induction fuel with
  | zero => intro r; rfl
  | succ n ih => intro r; exact ih r
